import Mathlib

/-!
Verification of the qinhuai CRDT substrate against its specification.

The development shallowly embeds the Rust source:

* `src/native/src/workspace/atom_set.rs` — `AtomSet` and its SQL backend
  (`Transactor`), embedded as `AtomSet` / `Txr` below.
* `src/src/joinable/crdt/object_graph.rs` — the joinable `ObjectGraph`
  readers, embedded as `ObjectGraph`.
* `src/packages/beacons/src/store.rs` — the `Store` façade, embedded as
  `Store`.

Components of the repository whose source files are not included
(`StructureMetadata`, the joinable `Register`, the observable
`ObjectSet` / `ObjectGraph`, `VectorHistory`, serialization) are modelled
from the specification; each such definition carries a doc comment saying so.

Machine integers (`u64`, `u128`) are embedded as `Nat`: none of the verified
paths perform wrap-sensitive arithmetic. `BTreeMap` values are embedded as
association lists with unique keys; lookups, inserts and removals are the
list operations `kvLookup`, `kvInsert`, `kvErase` below.
-/

set_option synthInstance.maxSize 2048

/-- First-match lookup in an association list (embeds `BTreeMap::get`). -/
def kvLookup {β : Type} (m : List (Nat × β)) (k : Nat) : Option β :=
  match m with
  | [] => none
  | (k2, v) :: rest => if k2 = k then some v else kvLookup rest k

/-- Insert-or-replace in an association list (embeds `BTreeMap::insert`,
which replaces the value when the key is already present). -/
def kvInsert {β : Type} (m : List (Nat × β)) (k : Nat) (v : β) : List (Nat × β) :=
  match m with
  | [] => [(k, v)]
  | (k2, v2) :: rest => if k2 = k then (k, v) :: rest else (k2, v2) :: kvInsert rest k v

/-- Key removal in an association list (embeds `BTreeMap::remove`; on maps
with unique keys, removing every pair with the key is the same operation). -/
def kvErase {β : Type} (m : List (Nat × β)) (k : Nat) : List (Nat × β) :=
  m.filter (fun p => decide (p.1 ≠ k))

/-- The keys of an association list are pairwise distinct (the `BTreeMap`
representation invariant). -/
def kvNodup {β : Type} (m : List (Nat × β)) : Prop :=
  (m.map Prod.fst).Nodup

theorem kvLookup_kvInsert_self {β : Type} (m : List (Nat × β)) (k : Nat) (v : β) :
    kvLookup (kvInsert m k v) k = some v := by
  induction m with
  | nil => simp [kvInsert, kvLookup]
  | cons p rest ih =>
    by_cases h : p.1 = k
    · simp [kvInsert, kvLookup, h]
    · simpa [kvInsert, kvLookup, h] using ih

theorem kvLookup_kvInsert_ne {β : Type} (m : List (Nat × β)) (k k2 : Nat) (v : β)
    (h : k2 ≠ k) : kvLookup (kvInsert m k v) k2 = kvLookup m k2 := by
  induction m with
  | nil => simp [kvInsert, kvLookup, Ne.symm h]
  | cons p rest ih =>
    by_cases hp : p.1 = k
    · subst hp
      simp [kvInsert, kvLookup, Ne.symm h, h]
    · by_cases hk : p.1 = k2 <;> simp [kvInsert, kvLookup, hp, hk, ih, h]

theorem kvLookup_kvErase_self {β : Type} (m : List (Nat × β)) (k : Nat) :
    kvLookup (kvErase m k) k = none := by
  induction m with
  | nil => simp [kvErase, kvLookup]
  | cons p rest ih =>
    by_cases h : p.1 = k
    · simpa [kvErase, List.filter_cons, h] using ih
    · simpa [kvErase, List.filter_cons, h, kvLookup] using ih

theorem kvLookup_kvErase_ne {β : Type} (m : List (Nat × β)) (k k2 : Nat)
    (h : k2 ≠ k) : kvLookup (kvErase m k) k2 = kvLookup m k2 := by
  induction m with
  | nil => simp [kvErase, kvLookup]
  | cons p rest ih =>
    by_cases hp : p.1 = k
    · subst hp
      simpa [kvErase, List.filter_cons, kvLookup, Ne.symm h] using ih
    · have heq : kvErase (p :: rest) k = p :: kvErase rest k := by
        simp [kvErase, List.filter_cons, hp]
      rw [heq]
      by_cases hk : p.1 = k2 <;> simp [kvLookup, hk, ih]

theorem kvInsert_kvInsert_same {β : Type} (m : List (Nat × β)) (k : Nat) (v v2 : β) :
    kvInsert (kvInsert m k v) k v2 = kvInsert m k v2 := by
  induction m with
  | nil => simp [kvInsert]
  | cons p rest ih =>
    by_cases h : p.1 = k
    · simp [kvInsert, h]
    · simp [kvInsert, h, ih]

theorem kvLookup_mem {β : Type} (m : List (Nat × β)) (k : Nat) (v : β)
    (h : kvLookup m k = some v) : (k, v) ∈ m := by
  induction m with
  | nil => simp [kvLookup] at h
  | cons p rest ih =>
    by_cases hp : p.1 = k
    · simp only [kvLookup, hp, if_pos] at h
      cases p with
      | mk k2 v2 =>
        simp only [] at hp
        subst hp
        cases h
        exact List.mem_cons_self _ _
    · simp only [kvLookup, hp, if_neg, not_false_iff] at h
      exact List.mem_cons_of_mem _ (ih h)

/-- One step of the staging-overlay composition loop of `atom_set.rs`:
depending on the staged entry the step either inserts a projection of the
staged value or removes the id from the backend result. -/
def modsStep {β γ : Type} (g : Nat × β → Option γ) (res : List (Nat × γ))
    (p : Nat × β) : List (Nat × γ) :=
  match g p with
  | some x => kvInsert res p.1 x
  | none => kvErase res p.1

theorem kvLookup_foldl_modsStep_notmem {β γ : Type} (g : Nat × β → Option γ)
    (l : List (Nat × β)) (init : List (Nat × γ)) (k : Nat)
    (h : ∀ p ∈ l, p.1 ≠ k) :
    kvLookup (l.foldl (modsStep g) init) k = kvLookup init k := by
  induction l generalizing init with
  | nil => rfl
  | cons p rest ih =>
    have hp : p.1 ≠ k := h p (List.mem_cons_self _ _)
    have hrest : ∀ q ∈ rest, q.1 ≠ k := fun q hq => h q (List.mem_cons_of_mem _ hq)
    rw [List.foldl_cons, ih _ hrest]
    unfold modsStep
    cases g p with
    | some x => exact kvLookup_kvInsert_ne _ _ _ _ (Ne.symm hp)
    | none => exact kvLookup_kvErase_ne _ _ _ (Ne.symm hp)

theorem kvLookup_foldl_modsStep_mem {β γ : Type} (g : Nat × β → Option γ)
    (l : List (Nat × β)) (init : List (Nat × γ)) (k : Nat) (b : β)
    (hnd : kvNodup l) (hmem : kvLookup l k = some b) :
    kvLookup (l.foldl (modsStep g) init) k = g (k, b) := by
  induction l generalizing init with
  | nil => simp [kvLookup] at hmem
  | cons p rest ih =>
    have hnd1 : p.1 ∉ rest.map Prod.fst := by
      have h2 : kvNodup (p :: rest) := hnd
      unfold kvNodup at h2
      rw [List.map_cons, List.nodup_cons] at h2
      exact h2.1
    have hnd2 : kvNodup rest := by
      have h2 : kvNodup (p :: rest) := hnd
      unfold kvNodup at h2
      rw [List.map_cons, List.nodup_cons] at h2
      exact h2.2
    by_cases hp : p.1 = k
    · simp only [kvLookup, hp, if_pos] at hmem
      have hb : p.2 = b := Option.some.inj hmem
      have hrest : ∀ q ∈ rest, q.1 ≠ k := by
        intro q hq hqk
        apply hnd1
        rw [hp, ← hqk]
        exact List.mem_map_of_mem Prod.fst hq
      rw [List.foldl_cons, kvLookup_foldl_modsStep_notmem g rest _ k hrest]
      have hkp : ((k : Nat), b) = p := by
        rw [← hp, ← hb]
      rw [hkp]
      unfold modsStep
      cases g p with
      | some x => rw [hp]; exact kvLookup_kvInsert_self _ _ _
      | none => rw [hp]; exact kvLookup_kvErase_self _ _
    · simp only [kvLookup, hp, if_neg, not_false_iff] at hmem
      rw [List.foldl_cons]
      exact ih _ hnd2 hmem

/-- Modelled from the spec: `StructureMetadata` (§2, §4.1) — the source file
`workspace/metadata.rs` is not among the provided files. It tracks, per named
structure, the highest observed logical clock for each known bucket.
`buckets` is the merged (staged over persisted) per-bucket high-watermark map. -/
structure StructureMetadata where
  buckets : List (Nat × Nat)
deriving DecidableEq

/-- Modelled from the spec (§4.1): `update(bucket, clock) → bool`: "if `clock` ≤
stored for `bucket`, reject (return false); else store and return true"; a
bucket with no stored clock accepts any clock. -/
def StructureMetadata.update (m : StructureMetadata) (bucket clock : Nat) :
    Bool × StructureMetadata :=
  match kvLookup m.buckets bucket with
  | some c => if clock ≤ c then (false, m) else (true, ⟨kvInsert m.buckets bucket clock⟩)
  | none => (true, ⟨kvInsert m.buckets bucket clock⟩)

/-- Modelled from the spec (§4.1): `next() = 1 + maximum value across buckets
(0 if empty)`. -/
def StructureMetadata.next (m : StructureMetadata) : Nat :=
  1 + m.buckets.foldl (fun acc p => max acc p.2) 0

/-- The acceptance test of `StructureMetadata.update`, as a predicate:
accepted iff the clock is strictly greater than the stored clock for the
bucket, or the bucket is unseen. -/
def clockAccepted (m : StructureMetadata) (bucket clock : Nat) : Bool :=
  match kvLookup m.buckets bucket with
  | some c => decide (clock > c)
  | none => true

theorem update_fst_eq_clockAccepted (m : StructureMetadata) (bucket clock : Nat) :
    (m.update bucket clock).1 = clockAccepted m bucket clock := by
  cases hbk : kvLookup m.buckets bucket with
  | some c =>
    by_cases h : clock ≤ c
    · simp [StructureMetadata.update, clockAccepted, hbk, h, Nat.not_lt.mpr h]
    · simp [StructureMetadata.update, clockAccepted, hbk, h, Nat.lt_of_not_le h]
  | none => simp [StructureMetadata.update, clockAccepted, hbk]

theorem update_false_eq (m : StructureMetadata) (bucket clock : Nat)
    (h : (m.update bucket clock).1 = false) : (m.update bucket clock).2 = m := by
  cases hbk : kvLookup m.buckets bucket with
  | some c =>
    by_cases hc : clock ≤ c
    · simp [StructureMetadata.update, hbk, hc]
    · simp [StructureMetadata.update, hbk, hc] at h
  | none => simp [StructureMetadata.update, hbk] at h

theorem update_true_buckets (m : StructureMetadata) (bucket clock : Nat)
    (h : (m.update bucket clock).1 = true) :
    (m.update bucket clock).2.buckets = kvInsert m.buckets bucket clock := by
  cases hbk : kvLookup m.buckets bucket with
  | some c =>
    by_cases hc : clock ≤ c
    · simp [StructureMetadata.update, hbk, hc] at h
    · simp [StructureMetadata.update, hbk, hc]
  | none => simp [StructureMetadata.update, hbk]

/-- `(bucket, clock, Option (src, label, value))` — the `Item` type of
`atom_set.rs`, with byte strings embedded as `List Nat`. -/
abbrev SLV := Option (Nat × Nat × List Nat)

abbrev Item := Nat × Nat × SLV

instance itemDecEq : DecidableEq Item := inferInstance

instance modEntryDecEq : DecidableEq (Option Item × Item) := inferInstance

/-- The SQL backend of `AtomSet` (the `AtomSetTransactor` impl for
`Transactor` in `atom_set.rs`): the table `<prefix>.<name>.data` keyed by id,
plus the metadata sibling table. Rows with an absent value store SQL `NULL`
in the `src`, `label` and `value` columns. -/
structure Txr where
  data : List (Nat × Item)
  meta : List (Nat × Nat)
deriving DecidableEq

/-- `SELECT ... WHERE id = ?` (`AtomSetTransactor::get`). -/
def Txr.get (t : Txr) (id : Nat) : Option Item :=
  kvLookup t.data id

/-- `REPLACE INTO ... VALUES (...)` (`AtomSetTransactor::set`). -/
def Txr.set (t : Txr) (id : Nat) (item : Item) : Txr :=
  { t with data := kvInsert t.data id item }

/-- `SELECT id, label, value ... WHERE src = ?`: rows whose `src` column equals
the argument; tombstone rows have `src = NULL` and never match. -/
def Txr.id_label_value_by_src (t : Txr) (src : Nat) : List (Nat × (Nat × List Nat)) :=
  t.data.filterMap (fun p => match p.2.2.2 with
    | some (s, l, v) => if s = src then some (p.1, (l, v)) else none
    | none => none)

/-- `SELECT id, value ... WHERE src = ? AND label = ?`. -/
def Txr.id_value_by_src_label (t : Txr) (src label : Nat) : List (Nat × List Nat) :=
  t.data.filterMap (fun p => match p.2.2.2 with
    | some (s, l, v) => if s = src ∧ l = label then some (p.1, v) else none
    | none => none)

/-- `SELECT id, src, value ... WHERE label = ?`. -/
def Txr.id_src_value_by_label (t : Txr) (label : Nat) : List (Nat × (Nat × List Nat)) :=
  t.data.filterMap (fun p => match p.2.2.2 with
    | some (s, l, v) => if l = label then some (p.1, (s, v)) else none
    | none => none)

/-- `SELECT id, src ... WHERE label = ? AND value = ?`. -/
def Txr.id_src_by_label_value (t : Txr) (label : Nat) (value : List Nat) :
    List (Nat × Nat) :=
  t.data.filterMap (fun p => match p.2.2.2 with
    | some (s, l, v) => if l = label ∧ v = value then some (p.1, s) else none
    | none => none)

/-- `SELECT ... WHERE bucket = ? AND clock > ?` with the `lower` parameter
bound from `lower.map(u64::to_be_bytes)`: when `lower` is `None` the bound
value is SQL `NULL`, and in SQLite the comparison `clock > NULL` evaluates to
`NULL`, which `WHERE` treats as false — so no rows are returned in that case. -/
def Txr.by_bucket_clock_range (t : Txr) (bucket : Nat) (lower : Option Nat) :
    List (Nat × Item) :=
  match lower with
  | none => []
  | some l => t.data.filter (fun p => decide (p.2.1 = bucket ∧ p.2.2.1 > l))

/-- The `AtomSet` of `workspace/atom_set.rs`: per-structure metadata plus the
staging map `mods : id → (prev, curr)`. -/
structure AtomSet where
  metadata : StructureMetadata
  mods : List (Nat × (Option Item × Item))
deriving DecidableEq

/-- `AtomSet::get`: consults `mods` first, falling back to the backend. -/
def AtomSet.get (s : AtomSet) (t : Txr) (id : Nat) : Option Item :=
  match kvLookup s.mods id with
  | some pc => some pc.2
  | none => t.get id

/-- `AtomSet::mods`: pending modifications as `(id, prev_slv, curr_slv)`. -/
def AtomSet.modsView (s : AtomSet) : List (Nat × SLV × SLV) :=
  s.mods.map (fun p => (p.1, (p.2.1.bind (fun it => it.2.2), p.2.2.2.2)))

/-- `AtomSet::set`: gated by `StructureMetadata::update`; on acceptance the
`mods` entry is replaced, fetching the backend value as `prev` the first time
the id is touched in this staging window. -/
def AtomSet.set (s : AtomSet) (t : Txr) (id bucket clock : Nat) (slv : SLV) :
    Bool × AtomSet :=
  let r := s.metadata.update bucket clock
  if r.1 then
    match kvLookup s.mods id with
    | none => (true, ⟨r.2, kvInsert s.mods id (t.get id, (bucket, clock, slv))⟩)
    | some pc => (true, ⟨r.2, kvInsert s.mods id (pc.1, (bucket, clock, slv))⟩)
  else (false, s)

/-- `AtomSet::id_label_value_by_src`: backend query composed with the staged
mods (insert the projection when the staged value matches `src`, remove
otherwise). -/
def AtomSet.id_label_value_by_src (s : AtomSet) (t : Txr) (src : Nat) :
    List (Nat × (Nat × List Nat)) :=
  s.mods.foldl (modsStep (fun p => match p.2.2.2.2 with
    | some (s2, l, v) => if s2 = src then some (l, v) else none
    | none => none)) (t.id_label_value_by_src src)

/-- `AtomSet::id_value_by_src_label`. -/
def AtomSet.id_value_by_src_label (s : AtomSet) (t : Txr) (src label : Nat) :
    List (Nat × List Nat) :=
  s.mods.foldl (modsStep (fun p => match p.2.2.2.2 with
    | some (s2, l, v) => if s2 = src ∧ l = label then some v else none
    | none => none)) (t.id_value_by_src_label src label)

/-- `AtomSet::id_src_value_by_label`. -/
def AtomSet.id_src_value_by_label (s : AtomSet) (t : Txr) (label : Nat) :
    List (Nat × (Nat × List Nat)) :=
  s.mods.foldl (modsStep (fun p => match p.2.2.2.2 with
    | some (s2, l, v) => if l = label then some (s2, v) else none
    | none => none)) (t.id_src_value_by_label label)

/-- `AtomSet::id_src_by_label_value`. -/
def AtomSet.id_src_by_label_value (s : AtomSet) (t : Txr) (label : Nat)
    (value : List Nat) : List (Nat × Nat) :=
  s.mods.foldl (modsStep (fun p => match p.2.2.2.2 with
    | some (s2, l, v) => if l = label ∧ v = value then some s2 else none
    | none => none)) (t.id_src_by_label_value label value)

/-- `AtomSet::actions`: for every known bucket, collect the backend rows by
`by_bucket_clock_range` (the version map entry as lower bound), then compose
the staged mods: a staged item is inserted when `Some(clock) >
version.get(bucket)` under Rust `Option` ordering (absent entry compares
below everything), removed otherwise. -/
def AtomSet.actions (s : AtomSet) (t : Txr) (version : List (Nat × Nat)) :
    List (Nat × Item) :=
  let res := (s.metadata.buckets.map Prod.fst).foldl (fun res bucket =>
    (t.by_bucket_clock_range bucket (kvLookup version bucket)).foldl
      (fun res p => kvInsert res p.1 p.2) res) []
  s.mods.foldl (modsStep (fun p =>
    match kvLookup version p.2.2.1 with
    | none => some p.2.2
    | some l => if p.2.2.2.1 > l then some p.2.2 else none)) res

/-- `AtomSet::save`: persist the metadata, write every staged current item to
the backend, return the staged map, and leave the staging map empty. -/
def AtomSet.save (s : AtomSet) (t : Txr) :
    List (Nat × (Option Item × Item)) × AtomSet × Txr :=
  let t1 : Txr := { t with meta := s.metadata.buckets }
  let t2 := s.mods.foldl (fun acc p => acc.set p.1 p.2.2) t1
  (s.mods, ⟨s.metadata, []⟩, t2)

theorem set_fst (s : AtomSet) (t : Txr) (id bucket clock : Nat) (slv : SLV) :
    (s.set t id bucket clock slv).1 = (s.metadata.update bucket clock).1 := by
  cases hr : (s.metadata.update bucket clock).1 with
  | false => simp [AtomSet.set, hr]
  | true => cases hm : kvLookup s.mods id <;> simp [AtomSet.set, hr, hm]

theorem set_false (s : AtomSet) (t : Txr) (id bucket clock : Nat) (slv : SLV)
    (h : (s.metadata.update bucket clock).1 = false) :
    s.set t id bucket clock slv = (false, s) := by
  simp [AtomSet.set, h]

theorem set_true (s : AtomSet) (t : Txr) (id bucket clock : Nat) (slv : SLV)
    (h : (s.metadata.update bucket clock).1 = true) :
    (s.set t id bucket clock slv).2.metadata = (s.metadata.update bucket clock).2 ∧
    (s.set t id bucket clock slv).2.mods = kvInsert s.mods id
      ((match kvLookup s.mods id with | none => t.get id | some pc => pc.1),
        (bucket, clock, slv)) := by
  cases hm : kvLookup s.mods id <;> simp [AtomSet.set, h, hm]

/-- C5: `AtomSet::set(id, bucket, clock, slv)` returns true iff
`StructureMetadata::update(bucket, clock)` accepts it (clock strictly greater
than the stored clock for the bucket, or bucket unseen); when it returns
false the call is a no-op: the whole state — hence the staging map, `get`,
and every query result — is exactly as before the call. -/
theorem C5_rejected_write_noop (s : AtomSet) (t : Txr) (id bucket clock : Nat)
    (slv : SLV) :
    ((s.set t id bucket clock slv).1 = clockAccepted s.metadata bucket clock) ∧
    ((s.set t id bucket clock slv).1 = false →
      (s.set t id bucket clock slv).2 = s ∧
      (s.set t id bucket clock slv).2.mods = s.mods ∧
      (s.set t id bucket clock slv).2.get t id = s.get t id ∧
      (∀ src, (s.set t id bucket clock slv).2.id_label_value_by_src t src =
        s.id_label_value_by_src t src) ∧
      (∀ src label, (s.set t id bucket clock slv).2.id_value_by_src_label t src label =
        s.id_value_by_src_label t src label) ∧
      (∀ label, (s.set t id bucket clock slv).2.id_src_value_by_label t label =
        s.id_src_value_by_label t label) ∧
      (∀ label value, (s.set t id bucket clock slv).2.id_src_by_label_value t label value =
        s.id_src_by_label_value t label value) ∧
      (∀ version, (s.set t id bucket clock slv).2.actions t version =
        s.actions t version)) := by
  constructor
  · rw [set_fst, update_fst_eq_clockAccepted]
  · intro h
    have hr : (s.metadata.update bucket clock).1 = false := by
      rw [← set_fst s t id bucket clock slv]
      exact h
    have hs : (s.set t id bucket clock slv).2 = s := by
      rw [set_false s t id bucket clock slv hr]
    refine ⟨hs, ?_, ?_, ?_, ?_, ?_, ?_, ?_⟩ <;> rw [hs] <;> simp

/-- C7: applying the same action twice in succession via `AtomSet::set`
leaves the state equal to applying it once: the second application is
rejected (returns false) and does not change the state. -/
theorem C7_idempotent (s : AtomSet) (t : Txr) (id bucket clock : Nat) (slv : SLV) :
    ((s.set t id bucket clock slv).2.set t id bucket clock slv).1 = false ∧
    ((s.set t id bucket clock slv).2.set t id bucket clock slv).2 =
      (s.set t id bucket clock slv).2 := by
  cases hr : (s.metadata.update bucket clock).1 with
  | false =>
    have h1 := set_false s t id bucket clock slv hr
    rw [h1]
    have h2 := set_false s t id bucket clock slv hr
    constructor
    · rw [show ((false, s) : Bool × AtomSet).2 = s from rfl, h2]
    · rw [show ((false, s) : Bool × AtomSet).2 = s from rfl, h2]
  | true =>
    have hmeta := (set_true s t id bucket clock slv hr).1
    have hr2 : ((s.set t id bucket clock slv).2.metadata.update bucket clock).1 = false := by
      rw [update_fst_eq_clockAccepted]
      unfold clockAccepted
      rw [hmeta, update_true_buckets _ _ _ hr, kvLookup_kvInsert_self]
      simp
    have h2 := set_false (s.set t id bucket clock slv).2 t id bucket clock slv hr2
    rw [h2]
    exact ⟨rfl, rfl⟩

theorem kvLookup_none_forall {β : Type} (m : List (Nat × β)) (k : Nat)
    (h : kvLookup m k = none) : ∀ p ∈ m, p.1 ≠ k := by
  induction m with
  | nil => intro p hp; simp at hp
  | cons q rest ih =>
    intro p hp
    by_cases hq : q.1 = k
    · rw [kvLookup, if_pos hq] at h
      cases h
    · rw [kvLookup, if_neg hq] at h
      rcases List.mem_cons.mp hp with h2 | h2
      · rw [h2]; exact hq
      · exact ih h p h2

/-- C4: for every secondary-index query and every id with a staged mod, the
query result at that id is fully determined by the staged current value: the
projection when it matches the query predicate, absent otherwise — for any
backend contents `t`. -/
theorem C4_query_staging_override (s : AtomSet) (t : Txr) (id : Nat)
    (prev : Option Item) (bucket clock : Nat) (slv : SLV)
    (hnd : kvNodup s.mods)
    (hmem : kvLookup s.mods id = some (prev, (bucket, clock, slv))) :
    (∀ src, kvLookup (s.id_label_value_by_src t src) id =
      match slv with
      | some (s2, l, v) => if s2 = src then some (l, v) else none
      | none => none) ∧
    (∀ src label, kvLookup (s.id_value_by_src_label t src label) id =
      match slv with
      | some (s2, l, v) => if s2 = src ∧ l = label then some v else none
      | none => none) ∧
    (∀ label, kvLookup (s.id_src_value_by_label t label) id =
      match slv with
      | some (s2, l, v) => if l = label then some (s2, v) else none
      | none => none) ∧
    (∀ label value, kvLookup (s.id_src_by_label_value t label value) id =
      match slv with
      | some (s2, l, v) => if l = label ∧ v = value then some s2 else none
      | none => none) := by
  cases slv with
  | none =>
    refine ⟨?_, ?_, ?_, ?_⟩
    · intro src
      unfold AtomSet.id_label_value_by_src
      exact kvLookup_foldl_modsStep_mem _ _ _ _ _ hnd hmem
    · intro src label
      unfold AtomSet.id_value_by_src_label
      exact kvLookup_foldl_modsStep_mem _ _ _ _ _ hnd hmem
    · intro label
      unfold AtomSet.id_src_value_by_label
      exact kvLookup_foldl_modsStep_mem _ _ _ _ _ hnd hmem
    · intro label value
      unfold AtomSet.id_src_by_label_value
      exact kvLookup_foldl_modsStep_mem _ _ _ _ _ hnd hmem
  | some q =>
    obtain ⟨s2, l, v⟩ := q
    refine ⟨?_, ?_, ?_, ?_⟩
    · intro src
      unfold AtomSet.id_label_value_by_src
      exact kvLookup_foldl_modsStep_mem _ _ _ _ _ hnd hmem
    · intro src label
      unfold AtomSet.id_value_by_src_label
      exact kvLookup_foldl_modsStep_mem _ _ _ _ _ hnd hmem
    · intro label
      unfold AtomSet.id_src_value_by_label
      exact kvLookup_foldl_modsStep_mem _ _ _ _ _ hnd hmem
    · intro label value
      unfold AtomSet.id_src_by_label_value
      exact kvLookup_foldl_modsStep_mem _ _ _ _ _ hnd hmem

theorem C4_query_staging_override_witness :
    kvLookup ((AtomSet.mk ⟨[(1, 1)]⟩ [(1, (none, (1, 1, some (10, 5, [7]))))]).id_label_value_by_src
      ⟨[], []⟩ 10) 1 = some (5, [7]) ∧
    kvLookup ((AtomSet.mk ⟨[(1, 1)]⟩ [(1, (none, (1, 1, some (10, 5, [7]))))]).id_src_by_label_value
      ⟨[(1, (9, 9, some (10, 5, [7])))], []⟩ 5 [8]) 1 = none := by
  have h := C4_query_staging_override (AtomSet.mk ⟨[(1, 1)]⟩
    [(1, (none, (1, 1, some (10, 5, [7]))))]) ⟨[], []⟩ 1 none 1 1 (some (10, 5, [7]))
    (by unfold kvNodup; decide) (by decide)
  have h2 := C4_query_staging_override (AtomSet.mk ⟨[(1, 1)]⟩
    [(1, (none, (1, 1, some (10, 5, [7]))))]) ⟨[(1, (9, 9, some (10, 5, [7])))], []⟩ 1 none 1 1
    (some (10, 5, [7])) (by unfold kvNodup; decide) (by decide)
  constructor
  · rw [h.1 10]
    decide
  · rw [(h2.2.2.2) 5 [8]]
    decide

theorem foldl_txr_set_data (l : List (Nat × (Option Item × Item))) (t1 : Txr) :
    (l.foldl (fun acc p => acc.set p.1 p.2.2) t1).data =
    l.foldl (modsStep (fun p => some p.2.2)) t1.data := by
  induction l generalizing t1 with
  | nil => rfl
  | cons p rest ih =>
    rw [List.foldl_cons, List.foldl_cons, ih]
    rfl

/-- C8: `AtomSet::save` writes every staged current item to the backend,
returns the full staged `(prev, curr)` map — where `prev` is preserved by
later `set` calls on the same id — and leaves the staging map empty, so
subsequent reads see the persisted values. -/
theorem C8_save_flushes_staging (s : AtomSet) (t : Txr) (hnd : kvNodup s.mods) :
    (s.save t).1 = s.mods ∧
    (s.save t).2.1.mods = [] ∧
    (∀ id e, kvLookup s.mods id = some e →
      kvLookup (s.save t).2.2.data id = some e.2 ∧
      (s.save t).2.1.get (s.save t).2.2 id = some e.2) ∧
    (∀ id, kvLookup s.mods id = none →
      kvLookup (s.save t).2.2.data id = kvLookup t.data id) ∧
    (∀ (t2 : Txr) id prev curr bucket clock slv,
      kvLookup s.mods id = some (prev, curr) →
      (s.set t2 id bucket clock slv).1 = true →
      kvLookup (s.set t2 id bucket clock slv).2.mods id = some (prev, (bucket, clock, slv))) := by
  refine ⟨rfl, rfl, ?_, ?_, ?_⟩
  · intro id e hmem
    have hdata : kvLookup (s.save t).2.2.data id = some e.2 := by
      show kvLookup (s.mods.foldl (fun (acc : Txr) p => acc.set p.1 p.2.2)
        { t with meta := s.metadata.buckets }).data id = some e.2
      rw [foldl_txr_set_data]
      rw [kvLookup_foldl_modsStep_mem _ _ _ _ _ hnd hmem]
    exact ⟨hdata, hdata⟩
  · intro id hmem
    show kvLookup (s.mods.foldl (fun (acc : Txr) p => acc.set p.1 p.2.2)
      { t with meta := s.metadata.buckets }).data id = kvLookup t.data id
    rw [foldl_txr_set_data]
    exact kvLookup_foldl_modsStep_notmem _ _ _ _ (kvLookup_none_forall _ _ hmem)
  · intro t2 id prev curr bucket clock slv hmem hacc
    have hr : (s.metadata.update bucket clock).1 = true := by
      rw [← set_fst s t2 id bucket clock slv]
      exact hacc
    rw [(set_true s t2 id bucket clock slv hr).2, hmem]
    exact kvLookup_kvInsert_self _ _ _

theorem C8_save_flushes_staging_witness :
    ((AtomSet.mk ⟨[(1, 2)]⟩ [(5, (none, (1, 2, some (9, 4, [3]))))]).save ⟨[], []⟩).1 =
      [(5, (none, (1, 2, some (9, 4, [3]))))] ∧
    kvLookup (((AtomSet.mk ⟨[(1, 2)]⟩ [(5, (none, (1, 2, some (9, 4, [3]))))]).save
      ⟨[], []⟩).2.2.data) 5 = some (1, 2, some (9, 4, [3])) := by
  have h := C8_save_flushes_staging (AtomSet.mk ⟨[(1, 2)]⟩
    [(5, (none, (1, 2, some (9, 4, [3]))))]) ⟨[], []⟩ (by unfold kvNodup; decide)
  exact ⟨h.1, (h.2.2.1 5 (none, (1, 2, some (9, 4, [3]))) (by decide)).1⟩

theorem smd_ext (a b : StructureMetadata) (h : a.buckets = b.buckets) : a = b := by
  cases a
  cases b
  simp_all

theorem atomSet_ext (a b : AtomSet) (h1 : a.metadata = b.metadata)
    (h2 : a.mods = b.mods) : a = b := by
  cases a
  cases b
  simp_all

theorem set_set_same_bucket (s : AtomSet) (t : Txr) (id bucket c1 c2 : Nat)
    (v1 v2 : SLV) (hlt : c1 < c2)
    (hacc : clockAccepted s.metadata bucket c2 = true) :
    ((s.set t id bucket c1 v1).2.set t id bucket c2 v2).2 =
      ⟨⟨kvInsert s.metadata.buckets bucket c2⟩,
        kvInsert s.mods id ((match kvLookup s.mods id with
          | none => t.get id
          | some pc => pc.1), (bucket, c2, v2))⟩ ∧
    ((s.set t id bucket c2 v2).2.set t id bucket c1 v1).2 =
      ⟨⟨kvInsert s.metadata.buckets bucket c2⟩,
        kvInsert s.mods id ((match kvLookup s.mods id with
          | none => t.get id
          | some pc => pc.1), (bucket, c2, v2))⟩ := by
  have hacc2 : (s.metadata.update bucket c2).1 = true := by
    rw [update_fst_eq_clockAccepted]
    exact hacc
  constructor
  · by_cases hacc1 : (s.metadata.update bucket c1).1 = true
    · have h1 := set_true s t id bucket c1 v1 hacc1
      have hb1 : (s.set t id bucket c1 v1).2.metadata.buckets =
          kvInsert s.metadata.buckets bucket c1 := by
        rw [h1.1, update_true_buckets _ _ _ hacc1]
      have hacc2b : ((s.set t id bucket c1 v1).2.metadata.update bucket c2).1 = true := by
        rw [update_fst_eq_clockAccepted]
        unfold clockAccepted
        rw [hb1, kvLookup_kvInsert_self]
        simpa using hlt
      have h2 := set_true (s.set t id bucket c1 v1).2 t id bucket c2 v2 hacc2b
      apply atomSet_ext
      · apply smd_ext
        rw [h2.1, update_true_buckets _ _ _ hacc2b, hb1, kvInsert_kvInsert_same]
      · rw [h2.2, h1.2, kvLookup_kvInsert_self, kvInsert_kvInsert_same]
    · have hf : (s.metadata.update bucket c1).1 = false := by
        cases hh : (s.metadata.update bucket c1).1
        · rfl
        · exact absurd hh hacc1
      have h1 : (s.set t id bucket c1 v1).2 = s := by
        rw [set_false s t id bucket c1 v1 hf]
      rw [h1]
      have h2 := set_true s t id bucket c2 v2 hacc2
      apply atomSet_ext
      · apply smd_ext
        rw [h2.1, update_true_buckets _ _ _ hacc2]
      · rw [h2.2]
  · have h1 := set_true s t id bucket c2 v2 hacc2
    have hb1 : (s.set t id bucket c2 v2).2.metadata.buckets =
        kvInsert s.metadata.buckets bucket c2 := by
      rw [h1.1, update_true_buckets _ _ _ hacc2]
    have hrej : ((s.set t id bucket c2 v2).2.metadata.update bucket c1).1 = false := by
      rw [update_fst_eq_clockAccepted]
      unfold clockAccepted
      rw [hb1, kvLookup_kvInsert_self]
      simpa using Nat.not_lt.mpr (Nat.le_of_lt hlt)
    have h2 : ((s.set t id bucket c2 v2).2.set t id bucket c1 v1).2 =
        (s.set t id bucket c2 v2).2 := by
      rw [set_false _ t id bucket c1 v1 hrej]
    rw [h2]
    apply atomSet_ext
    · apply smd_ext
      rw [hb1]
    · rw [h1.2]

/-- C1 (counterexample): two actions on the same id with distinct stamps but
different buckets do not commute under `AtomSet::set`, and the surviving value
is the one applied last, not the `(clock, bucket)` lex-max: `set` is gated only
by per-bucket clock monotonicity and never compares the stamp stored for the
id. Actions `(id 1, bucket 1, clock 5, [1])` and `(id 1, bucket 2, clock 3,
[2])` are both accepted in either order. -/
theorem C1_lww_counterexample :
    (((AtomSet.mk ⟨[]⟩ []).set ⟨[], []⟩ 1 1 5 (some (0, 0, [1]))).2.set
        ⟨[], []⟩ 1 2 3 (some (0, 0, [2]))).2 ≠
      (((AtomSet.mk ⟨[]⟩ []).set ⟨[], []⟩ 1 2 3 (some (0, 0, [2]))).2.set
        ⟨[], []⟩ 1 1 5 (some (0, 0, [1]))).2 ∧
    (((AtomSet.mk ⟨[]⟩ []).set ⟨[], []⟩ 1 1 5 (some (0, 0, [1]))).2.set
        ⟨[], []⟩ 1 2 3 (some (0, 0, [2]))).2.get ⟨[], []⟩ 1 =
      some (2, 3, some (0, 0, [2])) := by
  constructor
  · decide
  · decide

/-- C1 (amended): for two `AtomSet` actions on the same id that share the same
bucket, have distinct clocks, and whose larger clock is accepted by the
structure metadata, applying both via `AtomSet::set` in either order yields
the same final state, and `get(id)` then returns the item with the larger
clock — which is the `(clock, bucket)` lex-max of the two actions. -/
theorem C1_lww_same_bucket (s : AtomSet) (t : Txr) (id bucket c1 c2 : Nat)
    (v1 v2 : SLV) (hne : c1 ≠ c2)
    (hacc : clockAccepted s.metadata bucket (max c1 c2) = true) :
    ((s.set t id bucket c1 v1).2.set t id bucket c2 v2).2 =
      ((s.set t id bucket c2 v2).2.set t id bucket c1 v1).2 ∧
    ((s.set t id bucket c1 v1).2.set t id bucket c2 v2).2.get t id =
      some (bucket, max c1 c2, if c1 ≤ c2 then v2 else v1) := by
  rcases Nat.lt_or_ge c1 c2 with hlt | hge
  · have hmax : max c1 c2 = c2 := Nat.max_eq_right (Nat.le_of_lt hlt)
    have h := set_set_same_bucket s t id bucket c1 c2 v1 v2 hlt (by rwa [hmax] at hacc)
    constructor
    · rw [h.1, h.2]
    · rw [h.1]
      unfold AtomSet.get
      rw [kvLookup_kvInsert_self]
      simp [hmax, Nat.le_of_lt hlt]
  · have hlt2 : c2 < c1 := Nat.lt_of_le_of_ne hge (Ne.symm hne)
    have hmax : max c1 c2 = c1 := Nat.max_eq_left hge
    have h := set_set_same_bucket s t id bucket c2 c1 v2 v1 hlt2 (by rwa [hmax] at hacc)
    constructor
    · rw [h.1, h.2]
    · rw [h.2]
      unfold AtomSet.get
      rw [kvLookup_kvInsert_self]
      simp [hmax, Nat.not_le.mpr hlt2]

theorem C1_lww_same_bucket_witness :
    (((AtomSet.mk ⟨[]⟩ []).set ⟨[], []⟩ 9 4 1 (some (0, 0, [1]))).2.set
        ⟨[], []⟩ 9 4 2 (some (0, 0, [2]))).2 =
      (((AtomSet.mk ⟨[]⟩ []).set ⟨[], []⟩ 9 4 2 (some (0, 0, [2]))).2.set
        ⟨[], []⟩ 9 4 1 (some (0, 0, [1]))).2 ∧
    (((AtomSet.mk ⟨[]⟩ []).set ⟨[], []⟩ 9 4 1 (some (0, 0, [1]))).2.set
        ⟨[], []⟩ 9 4 2 (some (0, 0, [2]))).2.get ⟨[], []⟩ 9 =
      some (4, 2, some (0, 0, [2])) := by
  have h := C1_lww_same_bucket (AtomSet.mk ⟨[]⟩ []) ⟨[], []⟩ 9 4 1 2
    (some (0, 0, [1])) (some (0, 0, [2])) (by decide) (by decide)
  exact ⟨h.1, by simpa using h.2⟩

/-- C3 (divergence): with a version map lacking an entry for a known bucket,
`AtomSet::actions` drops every *persisted* item of that bucket — the backend
range query binds SQL `NULL` as the lower bound and `clock > NULL` matches no
rows — while the staged-mods path of the same function treats the absent
entry as "everything is newer" (`Some(clock) > None` in Rust) and returns the
item. The spec (absent entry ≡ clock 0, all items returned) agrees with the
mods path and is contradicted by the backend path: here the same item
`(bucket 1, clock 1, some (2, 3, [4]))` under id 7 is returned when staged
but not when persisted. -/
theorem C3_actions_absent_bucket_bug :
    AtomSet.actions (AtomSet.mk ⟨[(1, 1)]⟩ [])
      ⟨[(7, (1, 1, some (2, 3, [4])))], [(1, 1)]⟩ [] = [] ∧
    AtomSet.actions (AtomSet.mk ⟨[(1, 1)]⟩ [(7, (none, (1, 1, some (2, 3, [4]))))])
      ⟨[], [(1, 1)]⟩ [] = [(7, (1, 1, some (2, 3, [4])))] := by
  constructor
  · decide
  · decide

/-- Modelled from the spec: the joinable `Register` (glossary: "a cell holding
(Stamp, Option value); merges by LWW") — the source `joinable/crdt/register.rs`
is not among the provided files. The joinable `Clock` is embedded as `Nat`. -/
structure Register (V : Type) where
  clock : Nat
  value : V
deriving DecidableEq

/-- `Register::get`. -/
def Register.get {V : Type} (r : Register V) : V :=
  r.value

/-- `Register::make_mod`. -/
def Register.make_mod {V : Type} (value : V) (clock : Nat) : Register V :=
  ⟨clock, value⟩

/-- The joinable `ObjectGraph` of `joinable/crdt/object_graph.rs`: three
co-resident register maps (vertices, atoms, edges) over the same id space.
Edge values are `(src, dst, label)` triples, matching the `(I, I, E)` order of
the source. -/
structure ObjectGraph where
  vertices : List (Nat × Register (Option Nat))
  atoms : List (Nat × Register (Option (Nat × Nat)))
  edges : List (Nat × Register (Option (Nat × Nat × Nat)))
deriving DecidableEq

/-- A graph action: one register mod per component map
(`<ObjectGraph as State>::Action`). -/
abbrev GraphAction :=
  List (Nat × Register (Option Nat)) × List (Nat × Register (Option (Nat × Nat))) ×
    List (Nat × Register (Option (Nat × Nat × Nat)))

/-- `ObjectGraph::new` / `initial`: the empty graph. -/
def ObjectGraph.new : ObjectGraph :=
  ⟨[], [], []⟩

/-- `ObjectGraph::vertex`: the register's value if the register exists. -/
def ObjectGraph.vertex (g : ObjectGraph) (index : Nat) : Option Nat :=
  match kvLookup g.vertices index with
  | none => none
  | some r =>
    match r.get with
    | some s => some s
    | none => none

/-- `ObjectGraph::atom`: note that the referential check is
`self.vertices().get(&s.0).and(Some(s))` — mere *map membership* of the
source vertex register, not `vertex()` presence. -/
def ObjectGraph.atom (g : ObjectGraph) (index : Nat) : Option (Nat × Nat) :=
  match kvLookup g.atoms index with
  | none => none
  | some r =>
    match r.get with
    | some s =>
      match kvLookup g.vertices s.1 with
      | some _ => some s
      | none => none
    | none => none

/-- `ObjectGraph::edge`: the referential check is
`self.vertices().get(&s.0).and(self.vertices().get(&s.1)).and(Some(s))` —
*map membership* of both endpoint vertex registers, not `vertex()` presence. -/
def ObjectGraph.edge (g : ObjectGraph) (index : Nat) : Option (Nat × Nat × Nat) :=
  match kvLookup g.edges index with
  | none => none
  | some r =>
    match r.get with
    | some s =>
      match kvLookup g.vertices s.1, kvLookup g.vertices s.2.1 with
      | some _, some _ => some s
      | _, _ => none
    | none => none

/-- `ObjectGraph::make_vertex_mod`. -/
def ObjectGraph.make_vertex_mod (index : Nat) (value : Option Nat) (clock : Nat) :
    GraphAction :=
  ([(index, Register.make_mod value clock)], [], [])

/-- `ObjectGraph::make_atom_mod`. -/
def ObjectGraph.make_atom_mod (index : Nat) (value : Option (Nat × Nat)) (clock : Nat) :
    GraphAction :=
  ([], [(index, Register.make_mod value clock)], [])

/-- `ObjectGraph::make_edge_mod`. -/
def ObjectGraph.make_edge_mod (index : Nat) (value : Option (Nat × Nat × Nat))
    (clock : Nat) : GraphAction :=
  ([], [], [(index, Register.make_mod value clock)])

/-- Modelled from the spec (§3 LWW merge rule, §4.3 `apply`): joining a
register mod keeps the write with the greater clock; a mod that is not
strictly newer is a no-op. The `State`/`Joinable` instances live in
`joinable/mod.rs`, which is not among the provided files. -/
def Register.join {V : Type} (r m : Register V) : Register V :=
  if m.clock > r.clock then m else r

/-- Modelled from the spec (§4.3): `apply` merges each per-key register mod
into the corresponding map, inserting registers for unseen keys. -/
def joinRegs {V : Type} [DecidableEq V] (cur mods : List (Nat × Register V)) :
    List (Nat × Register V) :=
  mods.foldl (fun cur p =>
    match kvLookup cur p.1 with
    | none => kvInsert cur p.1 p.2
    | some r => kvInsert cur p.1 (r.join p.2)) cur

/-- Modelled from the spec (§4.3): `apply(action)` for the joinable graph. -/
def ObjectGraph.apply (g : ObjectGraph) (a : GraphAction) : ObjectGraph :=
  ⟨joinRegs g.vertices a.1, joinRegs g.atoms a.2.1, joinRegs g.edges a.2.2⟩

/-- C2 (divergence): build the graph by setting vertices 10 and 20 present,
edge 1 = (src 10, dst 20, label 5), then tombstoning vertex 10 with a newer
stamp. The claim (and spec §4.3 / property 5) says `edge(1)` must now be
`None`; the code still returns `Some((10, 20, 5))` because its referential
check tests register-map membership (`vertices().get`) instead of `vertex()`
presence, so a tombstoned vertex still "exists". `vertex 10 = none` confirms
the vertex itself reads as absent. -/
theorem C2_referential_hide_bug :
    ((((ObjectGraph.new.apply (ObjectGraph.make_vertex_mod 10 (some 0) 1)).apply
        (ObjectGraph.make_vertex_mod 20 (some 0) 1)).apply
        (ObjectGraph.make_edge_mod 1 (some (10, 20, 5)) 1)).apply
        (ObjectGraph.make_vertex_mod 10 none 2)).vertex 10 = none ∧
    ((((ObjectGraph.new.apply (ObjectGraph.make_vertex_mod 10 (some 0) 1)).apply
        (ObjectGraph.make_vertex_mod 20 (some 0) 1)).apply
        (ObjectGraph.make_edge_mod 1 (some (10, 20, 5)) 1)).apply
        (ObjectGraph.make_vertex_mod 10 none 2)).edge 1 = some (10, 20, 5) := by
  constructor
  · decide
  · decide

theorem foldl_max_init {β : Type} (f : β → Nat) (l : List β) (a : Nat) :
    a ≤ l.foldl (fun acc x => max acc (f x)) a := by
  induction l generalizing a with
  | nil => exact Nat.le_refl a
  | cons q rest ih => exact Nat.le_trans (Nat.le_max_left a (f q)) (ih _)

theorem foldl_max_mem {β : Type} (f : β → Nat) (l : List β) (a : Nat) (e : β)
    (he : e ∈ l) : f e ≤ l.foldl (fun acc x => max acc (f x)) a := by
  induction l generalizing a with
  | nil => cases he
  | cons q rest ih =>
    rw [List.foldl_cons]
    rcases List.mem_cons.mp he with rfl | hmem
    · exact Nat.le_trans (Nat.le_max_right a (f e)) (foldl_max_init f rest _)
    · exact ih _ hmem

theorem update_next_true (m : StructureMetadata) (bucket : Nat) :
    (m.update bucket m.next).1 = true := by
  rw [update_fst_eq_clockAccepted]
  unfold clockAccepted StructureMetadata.next
  cases hc : kvLookup m.buckets bucket with
  | none => rfl
  | some c =>
    have hle : (fun (p : Nat × Nat) => p.2) (bucket, c) ≤
        m.buckets.foldl (fun acc x => max acc ((fun (p : Nat × Nat) => p.2) x)) 0 :=
      foldl_max_mem _ _ 0 _ (kvLookup_mem _ _ _ hc)
    simp only [] at hle
    simp only [decide_eq_true_eq]
    omega

/-- Modelled from the spec: the observable `ObjectSet` that `Store` uses for
atoms ("one AtomSet-like structure for atoms", §2) — its source is not among
the provided files. The state is the merged view of backend and staging
(flush-on-every-write, noted semantically equivalent in §9); `apply` is gated
by `StructureMetadata::update` exactly as `AtomSet::set` (§3, §4.2). An item
is `(bucket, clock, Option value-bytes)`. -/
structure ObjectSet where
  metadata : StructureMetadata
  data : List (Nat × (Nat × Nat × Option (List Nat)))
deriving DecidableEq

/-- An `ObjectSet` action `(id, bucket, clock, value)`. -/
abbrev OAction := Nat × Nat × Nat × Option (List Nat)

/-- Modelled from the spec (§4.3 action constructors): `bucket = this()`,
`clock = next()` at the moment of construction. -/
def ObjectSet.action (s : ObjectSet) (thisBucket id : Nat) (value : Option (List Nat)) :
    OAction :=
  (id, thisBucket, s.metadata.next, value)

/-- Modelled from the spec: applying an `ObjectSet` action, gated by
`StructureMetadata::update`; returns whether the action was accepted. -/
def ObjectSet.apply (s : ObjectSet) (a : OAction) : Bool × ObjectSet :=
  let r := s.metadata.update a.2.1 a.2.2.1
  if r.1 then (true, ⟨r.2, kvInsert s.data a.1 (a.2.1, a.2.2.1, a.2.2.2)⟩)
  else (false, s)

/-- Modelled from the spec: `ObjectSet::get` returns the current value bytes. -/
def ObjectSet.get (s : ObjectSet) (id : Nat) : Option (List Nat) :=
  match kvLookup s.data id with
  | some it => it.2.2
  | none => none

/-- Compares a new stamp against an existing one under the LWW order of the
spec (§3): greater clock wins, ties broken by greater bucket. -/
def stampNewer (bucket clock : Nat) (old : Option (Nat × Nat)) : Bool :=
  match old with
  | none => true
  | some bc => decide (clock > bc.2 ∨ (clock = bc.2 ∧ bucket > bc.1))

/-- Modelled from the spec (§4.3): merge one register write into a register
map, replacing the cell only when the new stamp is strictly newer under LWW. -/
def applyRegMod {V : Type} (m : List (Nat × (Nat × Nat × V))) (id bucket clock : Nat)
    (value : V) : List (Nat × (Nat × Nat × V)) :=
  match kvLookup m id with
  | none => kvInsert m id (bucket, clock, value)
  | some it =>
    if stampNewer bucket clock (some (it.1, it.2.1)) then
      kvInsert m id (bucket, clock, value)
    else m

/-- Modelled from the spec: the observable `ObjectGraph` that `Store` uses —
its source is not among the provided files. Three register maps over the
same id space; each cell is `(bucket, clock, Option value)`. Edge values are
`(src, label, dst)`, the host-API order of `store.rs`. -/
structure OGraph where
  metadata : StructureMetadata
  nodes : List (Nat × (Nat × Nat × Option Nat))
  atoms : List (Nat × (Nat × Nat × Option (Nat × List Nat)))
  edges : List (Nat × (Nat × Nat × Option (Nat × Nat × Nat)))
deriving DecidableEq

/-- Modelled from the spec (§9 design notes): the tagged action variant
`vertex-mod | atom-mod | edge-mod`, each carrying `(id, Option payload,
stamp)`. -/
inductive OGraphAction where
  | vertexMod (id : Nat) (value : Option Nat) (bucket clock : Nat)
  | atomMod (id : Nat) (value : Option (Nat × List Nat)) (bucket clock : Nat)
  | edgeMod (id : Nat) (value : Option (Nat × Nat × Nat)) (bucket clock : Nat)
deriving DecidableEq

/-- Modelled from the spec (§4.3): `vertex(id)` — present iff register present
and value present. -/
def OGraph.node (g : OGraph) (id : Nat) : Option Nat :=
  match kvLookup g.nodes id with
  | some it => it.2.2
  | none => none

/-- Modelled from the spec (§4.3): `edge(id)` — present iff the register's
value is present AND both `vertex(src)` and `vertex(dst)` are present (a
tombstoned vertex is absent). -/
def OGraph.edge (g : OGraph) (id : Nat) : Option (Nat × Nat × Nat) :=
  match kvLookup g.edges id with
  | some it =>
    match it.2.2 with
    | some e =>
      match g.node e.1, g.node e.2.2 with
      | some _, some _ => some e
      | _, _ => none
    | none => none
  | none => none

/-- Modelled from the spec (§4.3): `action_edge` mints `bucket = this()`,
`clock = next()`. -/
def OGraph.action_edge (g : OGraph) (thisBucket id : Nat)
    (value : Option (Nat × Nat × Nat)) : OGraphAction :=
  OGraphAction.edgeMod id value thisBucket g.metadata.next

/-- Modelled from the spec (§4.3 with the §9 resolution: reject stale writes
under LWW and advance the metadata): `apply` for the observable graph. -/
def OGraph.apply (g : OGraph) (a : OGraphAction) : Bool × OGraph :=
  match a with
  | OGraphAction.vertexMod id value bucket clock =>
    let r := g.metadata.update bucket clock
    if r.1 then
      (true, { g with metadata := r.2, nodes := applyRegMod g.nodes id bucket clock value })
    else (false, g)
  | OGraphAction.atomMod id value bucket clock =>
    let r := g.metadata.update bucket clock
    if r.1 then
      (true, { g with metadata := r.2, atoms := applyRegMod g.atoms id bucket clock value })
    else (false, g)
  | OGraphAction.edgeMod id value bucket clock =>
    let r := g.metadata.update bucket clock
    if r.1 then
      (true, { g with metadata := r.2, edges := applyRegMod g.edges id bucket clock value })
    else (false, g)

/-- Modelled from the spec (§6 wire format): serialized action payloads.
Deserialization is fallible; `garbage` stands for byte strings that no
`serialize` call produced. -/
inductive Bytes where
  | atomsAction (a : OAction)
  | graphAction (a : OGraphAction)
  | garbage (n : Nat)
deriving DecidableEq

/-- Modelled from the spec: deserializing an `ObjectSet` action. -/
def deserializeAtomsAction : Bytes → Option OAction
  | Bytes.atomsAction a => some a
  | _ => none

/-- Modelled from the spec: deserializing an `ObjectGraph` action. -/
def deserializeGraphAction : Bytes → Option OGraphAction
  | Bytes.graphAction a => some a
  | _ => none

/-- Modelled from the spec (§4.5): the per-transaction event buffer. The
subscription tables are not needed by the verified claims, so the buffer is
modelled coarsely: one record per applied action. -/
inductive Event where
  | atomsEv (a : OAction)
  | graphEv (a : OGraphAction)
deriving DecidableEq

/-- The `Store` façade of `store.rs`. `thisBucket` and `history` model the
`VectorHistory` (spec §4.4, source not among the provided files): a log of
`(bucket, clock, structure-name, action-bytes)` entries, unique per
`(bucket, clock)`. -/
structure Store where
  thisBucket : Nat
  history : List (Nat × Nat × String × Bytes)
  atoms : ObjectSet
  graph : OGraph
  events : List Event
deriving DecidableEq

/-- Modelled from the spec (§4.4): `next_this()` = max clock recorded for
`this()`, or 0. -/
def Store.next_this (s : Store) : Nat :=
  s.history.foldl (fun acc e => if e.1 = s.thisBucket then max acc e.2.1 else acc) 0

/-- Modelled from the spec (§4.4): `push` inserts the entry if its
`(bucket, clock)` key is not yet recorded and reports whether it was novel. -/
def Store.push (s : Store) (bucket clock : Nat) (name : String) (b : Bytes) :
    Bool × Store :=
  if s.history.any (fun e => decide (e.1 = bucket ∧ e.2.1 = clock)) then (false, s)
  else (true, { s with history := s.history ++ [(bucket, clock, name, b)] })

/-- `Store` forwarding an accepted atoms action to the CRDT and queueing an
event (`store.rs` write pattern). -/
def Store.applyAtoms (s : Store) (a : OAction) : Store :=
  let r := s.atoms.apply a
  if r.1 then { s with atoms := r.2, events := s.events ++ [Event.atomsEv a] }
  else { s with atoms := r.2 }

/-- `Store` forwarding an accepted graph action to the CRDT and queueing an
event (`store.rs` write pattern). -/
def Store.applyGraph (s : Store) (a : OGraphAction) : Store :=
  let r := s.graph.apply a
  if r.1 then { s with graph := r.2, events := s.events ++ [Event.graphEv a] }
  else { s with graph := r.2 }

/-- `Store::atom`. -/
def Store.atom (s : Store) (id : Nat) : Option (List Nat) :=
  s.atoms.get id

/-- `Store::edge`. -/
def Store.edge (s : Store) (id : Nat) : Option (Nat × Nat × Nat) :=
  s.graph.edge id

/-- `Store::set_atom`: build the action, push it to the history under
`(this, next_this + 1)`, and apply it iff the push was novel. -/
def Store.set_atom (s : Store) (id : Nat) (value : Option (List Nat)) : Store :=
  let a := s.atoms.action s.thisBucket id value
  let r := s.push s.thisBucket (s.next_this + 1) "atoms" (Bytes.atomsAction a)
  if r.1 then r.2.applyAtoms a else r.2

/-- `Store::set_edge`: same pattern with the graph structure. -/
def Store.set_edge (s : Store) (id : Nat) (value : Option (Nat × Nat × Nat)) : Store :=
  let a := s.graph.action_edge s.thisBucket id value
  let r := s.push s.thisBucket (s.next_this + 1) "graph" (Bytes.graphAction a)
  if r.1 then r.2.applyGraph a else r.2

/-- `Store::set_edge_dst`: read the (referentially filtered) edge; if absent,
do nothing; otherwise re-set the edge with the existing src and label and the
new dst. -/
def Store.set_edge_dst (s : Store) (id dst : Nat) : Store :=
  match s.edge id with
  | some e => s.set_edge id (some (e.1, e.2.1, dst))
  | none => s

/-- One step of `VectorHistory::append` (spec §4.4): push the entry, keep it
in the novel list iff the push accepted it. -/
def Store.pushStep (acc : Store × List (Nat × Nat × String × Bytes))
    (e : Nat × Nat × String × Bytes) : Store × List (Nat × Nat × String × Bytes) :=
  let r := acc.1.push e.1 e.2.1 e.2.2.1 e.2.2.2
  (r.2, if r.1 then acc.2 ++ [e] else acc.2)

/-- Modelled from the spec (§4.4): `append(entries)` — batch push returning
the novel subset. -/
def Store.appendHistory (s : Store) (entries : List (Nat × Nat × String × Bytes)) :
    Store × List (Nat × Nat × String × Bytes) :=
  entries.foldl Store.pushStep (s, [])

/-- The per-entry dispatch of `Store::sync_apply`: deserialize and apply for
the names "atoms" and "graph", silently skip anything else; deserialization
failure (`.unwrap()` panic in the source) is `none`. -/
def Store.syncStep (st : Store) (e : Nat × Nat × String × Bytes) : Option Store :=
  if e.2.2.1 = "atoms" then (deserializeAtomsAction e.2.2.2).map st.applyAtoms
  else if e.2.2.1 = "graph" then (deserializeGraphAction e.2.2.2).map st.applyGraph
  else some st

/-- `Store::sync_apply`: append all entries to the vector history, then run
the newly-accepted ones through the per-name dispatch. -/
def Store.sync_apply (s : Store) (entries : List (Nat × Nat × String × Bytes)) :
    Option Store :=
  let r := s.appendHistory entries
  r.2.foldlM Store.syncStep r.1

theorem foldl_guard_max_init (tb : Nat) (l : List (Nat × Nat × String × Bytes)) (a : Nat) :
    a ≤ l.foldl (fun acc e => if e.1 = tb then max acc e.2.1 else acc) a := by
  induction l generalizing a with
  | nil => exact Nat.le_refl a
  | cons q rest ih =>
    rw [List.foldl_cons]
    refine Nat.le_trans ?_ (ih _)
    by_cases h : q.1 = tb
    · rw [if_pos h]
      exact Nat.le_max_left _ _
    · rw [if_neg h]

theorem foldl_guard_max_mem (tb : Nat) (l : List (Nat × Nat × String × Bytes)) (a : Nat)
    (e : Nat × Nat × String × Bytes) (he : e ∈ l) (hb : e.1 = tb) :
    e.2.1 ≤ l.foldl (fun acc x => if x.1 = tb then max acc x.2.1 else acc) a := by
  induction l generalizing a with
  | nil => cases he
  | cons q rest ih =>
    rw [List.foldl_cons]
    rcases List.mem_cons.mp he with rfl | hmem
    · refine Nat.le_trans ?_ (foldl_guard_max_init tb rest _)
      rw [if_pos hb]
      exact Nat.le_max_right _ _
    · exact ih _ hmem

theorem push_next_novel (st : Store) (n : String) (x : Bytes) :
    st.push st.thisBucket (st.next_this + 1) n x =
      (true, { st with history := st.history ++ [(st.thisBucket, st.next_this + 1, n, x)] }) := by
  have hany : st.history.any
      (fun e => decide (e.1 = st.thisBucket ∧ e.2.1 = st.next_this + 1)) = false := by
    rw [List.any_eq_false]
    intro e he
    simp only [decide_eq_true_eq, not_and]
    intro hb
    have hle := foldl_guard_max_mem st.thisBucket st.history 0 e he hb
    unfold Store.next_this
    intro heq
    rw [heq] at hle
    omega
  unfold Store.push
  rw [hany]
  simp

theorem set_atom_atom (st : Store) (id : Nat) (v : List Nat) :
    (st.set_atom id (some v)).atom id = some v := by
  have hp := push_next_novel st "atoms" (Bytes.atomsAction (st.atoms.action st.thisBucket id (some v)))
  simp only [Store.set_atom, hp]
  simp [Store.applyAtoms, ObjectSet.apply, ObjectSet.action, update_next_true,
    Store.atom, ObjectSet.get, kvLookup_kvInsert_self]

/-- C6: reads consult the staging overlay before the backend — for every id
with a staged mod, `AtomSet::get` returns the staged current item, for any
backend contents — and consequently, immediately after `Store::set_atom(id,
Some(v))`, `atom(id)` returns `Some(v)`. -/
theorem C6_read_your_writes :
    (∀ (s : AtomSet) (t t2 : Txr) (id : Nat) (e : Option Item × Item),
      kvLookup s.mods id = some e → s.get t id = some e.2 ∧ s.get t id = s.get t2 id) ∧
    (∀ (st : Store) (id : Nat) (v : List Nat),
      (st.set_atom id (some v)).atom id = some v) := by
  constructor
  · intro s t t2 id e hmem
    constructor
    · unfold AtomSet.get
      rw [hmem]
    · unfold AtomSet.get
      rw [hmem]
  · intro st id v
    exact set_atom_atom st id v

theorem C6_read_your_writes_witness :
    (AtomSet.mk ⟨[(1, 1)]⟩ [(3, (none, (1, 1, some (2, 2, [9]))))]).get ⟨[], []⟩ 3 =
      some (1, 1, some (2, 2, [9])) ∧
    ((Store.mk 1 [] ⟨⟨[]⟩, []⟩ ⟨⟨[]⟩, [], [], []⟩ []).set_atom 4 (some [5])).atom 4 =
      some [5] := by
  refine ⟨(C6_read_your_writes.1 _ ⟨[], []⟩ ⟨[], []⟩ 3
    (none, (1, 1, some (2, 2, [9]))) (by decide)).1, C6_read_your_writes.2 _ 4 [5]⟩

/-- C9: `Store::set_edge_dst(id, dst)` is a no-op whenever `edge(id)` — the
referentially filtered read — returns `None`; otherwise it behaves exactly as
`set_edge(id, Some((src, label, dst)))` with the existing edge's src and
label. -/
theorem C9_set_edge_dst_dispatch (st : Store) (id dst : Nat) :
    (st.edge id = none → st.set_edge_dst id dst = st) ∧
    (∀ src label d0, st.edge id = some (src, label, d0) →
      st.set_edge_dst id dst = st.set_edge id (some (src, label, dst))) := by
  constructor
  · intro h
    unfold Store.set_edge_dst
    rw [h]
  · intro src label d0 h
    unfold Store.set_edge_dst
    rw [h]

theorem C9_set_edge_dst_dispatch_witness :
    ((Store.mk 1 [] ⟨⟨[]⟩, []⟩ ⟨⟨[]⟩, [], [], []⟩ []).set_edge_dst 5 7 =
      Store.mk 1 [] ⟨⟨[]⟩, []⟩ ⟨⟨[]⟩, [], [], []⟩ []) ∧
    ((Store.mk 1 [] ⟨⟨[]⟩, []⟩ (OGraph.mk ⟨[(1, 1)]⟩
        [(10, (1, 1, some 0)), (20, (1, 1, some 0))] [] [(1, (1, 1, some (10, 5, 20)))]) []).set_edge_dst
      1 30 =
      (Store.mk 1 [] ⟨⟨[]⟩, []⟩ (OGraph.mk ⟨[(1, 1)]⟩
        [(10, (1, 1, some 0)), (20, (1, 1, some 0))] [] [(1, (1, 1, some (10, 5, 20)))]) []).set_edge
        1 (some (10, 5, 30))) := by
  constructor
  · exact (C9_set_edge_dst_dispatch _ 5 7).1 (by decide)
  · exact (C9_set_edge_dst_dispatch _ 1 30).2 10 5 20 (by decide)

/-- The `(bucket, clock)` key of an entry is recorded in a history log. -/
def histHasKey (h : List (Nat × Nat × String × Bytes)) (b c : Nat) : Bool :=
  h.any (fun x => decide (x.1 = b ∧ x.2.1 = c))

theorem push_fields (s : Store) (b c : Nat) (n : String) (x : Bytes) :
    (s.push b c n x).2.atoms = s.atoms ∧ (s.push b c n x).2.graph = s.graph ∧
    (s.push b c n x).2.events = s.events ∧ (s.push b c n x).2.thisBucket = s.thisBucket := by
  unfold Store.push
  split <;> exact ⟨rfl, rfl, rfl, rfl⟩

theorem pushStep_fields (acc : Store × List (Nat × Nat × String × Bytes))
    (e : Nat × Nat × String × Bytes) :
    (Store.pushStep acc e).1.atoms = acc.1.atoms ∧
    (Store.pushStep acc e).1.graph = acc.1.graph ∧
    (Store.pushStep acc e).1.events = acc.1.events ∧
    (Store.pushStep acc e).1.thisBucket = acc.1.thisBucket := by
  unfold Store.pushStep
  exact push_fields acc.1 e.1 e.2.1 e.2.2.1 e.2.2.2

theorem appendHistory_fields (entries : List (Nat × Nat × String × Bytes))
    (acc : Store × List (Nat × Nat × String × Bytes)) :
    (entries.foldl Store.pushStep acc).1.atoms = acc.1.atoms ∧
    (entries.foldl Store.pushStep acc).1.graph = acc.1.graph ∧
    (entries.foldl Store.pushStep acc).1.events = acc.1.events ∧
    (entries.foldl Store.pushStep acc).1.thisBucket = acc.1.thisBucket := by
  induction entries generalizing acc with
  | nil => exact ⟨rfl, rfl, rfl, rfl⟩
  | cons q rest ih =>
    rw [List.foldl_cons]
    have h1 := ih (Store.pushStep acc q)
    have h2 := pushStep_fields acc q
    exact ⟨h1.1.trans h2.1, h1.2.1.trans h2.2.1, h1.2.2.1.trans h2.2.2.1,
      h1.2.2.2.trans h2.2.2.2⟩

theorem appendHistory_novel_sub (entries : List (Nat × Nat × String × Bytes))
    (acc : Store × List (Nat × Nat × String × Bytes)) (e : Nat × Nat × String × Bytes)
    (he : e ∈ (entries.foldl Store.pushStep acc).2) : e ∈ acc.2 ∨ e ∈ entries := by
  induction entries generalizing acc with
  | nil => exact Or.inl he
  | cons q rest ih =>
    rw [List.foldl_cons] at he
    rcases ih (Store.pushStep acc q) he with h0 | h0
    · unfold Store.pushStep at h0
      by_cases hp : (acc.1.push q.1 q.2.1 q.2.2.1 q.2.2.2).1 = true
      · simp only [hp, if_true] at h0
        rcases List.mem_append.mp h0 with h1 | h1
        · exact Or.inl h1
        · right
          rw [List.mem_singleton.mp h1]
          exact List.mem_cons_self _ _
      · rw [Bool.not_eq_true] at hp
        simp only [hp, Bool.false_eq_true, if_false] at h0
        exact Or.inl h0
    · exact Or.inr (List.mem_cons_of_mem _ h0)

theorem push_key_after (s : Store) (b c : Nat) (n : String) (x : Bytes) :
    histHasKey (s.push b c n x).2.history b c = true := by
  unfold Store.push histHasKey
  by_cases h : s.history.any (fun e => decide (e.1 = b ∧ e.2.1 = c)) = true
  · rw [if_pos h]
    exact h
  · rw [Bool.not_eq_true] at h
    rw [h]
    simp only [Bool.false_eq_true, if_false, List.any_append]
    simp

theorem push_key_mono (s : Store) (b c b2 c2 : Nat) (n : String) (x : Bytes)
    (h : histHasKey s.history b c = true) :
    histHasKey (s.push b2 c2 n x).2.history b c = true := by
  unfold Store.push histHasKey
  unfold histHasKey at h
  split
  · exact h
  · rw [List.any_append, h]
    simp

theorem foldl_key_mono (entries : List (Nat × Nat × String × Bytes))
    (acc : Store × List (Nat × Nat × String × Bytes)) (b c : Nat)
    (h : histHasKey acc.1.history b c = true) :
    histHasKey (entries.foldl Store.pushStep acc).1.history b c = true := by
  induction entries generalizing acc with
  | nil => exact h
  | cons q rest ih =>
    rw [List.foldl_cons]
    exact ih (Store.pushStep acc q) (push_key_mono acc.1 b c q.1 q.2.1 q.2.2.1 q.2.2.2 h)

theorem appendHistory_key_present (entries : List (Nat × Nat × String × Bytes))
    (acc : Store × List (Nat × Nat × String × Bytes)) (e : Nat × Nat × String × Bytes)
    (he : e ∈ entries) :
    histHasKey (entries.foldl Store.pushStep acc).1.history e.1 e.2.1 = true := by
  induction entries generalizing acc with
  | nil => cases he
  | cons q rest ih =>
    rw [List.foldl_cons]
    rcases List.mem_cons.mp he with rfl | hmem
    · exact foldl_key_mono rest (Store.pushStep acc e) e.1 e.2.1
        (push_key_after acc.1 e.1 e.2.1 e.2.2.1 e.2.2.2)
    · exact ih (Store.pushStep acc q) hmem

theorem syncfold_skip (l : List (Nat × Nat × String × Bytes)) (st : Store)
    (h : ∀ e ∈ l, e.2.2.1 ≠ "atoms" ∧ e.2.2.1 ≠ "graph") :
    l.foldlM Store.syncStep st = some st := by
  induction l generalizing st with
  | nil => rfl
  | cons q rest ih =>
    rw [List.foldlM_cons]
    have hq := h q (List.mem_cons_self _ _)
    have hs : Store.syncStep st q = some st := by
      unfold Store.syncStep
      rw [if_neg hq.1, if_neg hq.2]
    rw [hs]
    exact ih st (fun e he => h e (List.mem_cons_of_mem _ he))

/-- C10: during `Store::sync_apply`, entries whose structure name is neither
"atoms" nor "graph" are silently skipped — the action bytes are never
deserialized (even garbage bytes cause no failure), no CRDT component changes
and no events are emitted — although each entry's `(bucket, clock)` key is
recorded in the vector history. -/
theorem C10_sync_apply_skips_unknown (s : Store)
    (entries : List (Nat × Nat × String × Bytes))
    (h : ∀ e ∈ entries, e.2.2.1 ≠ "atoms" ∧ e.2.2.1 ≠ "graph") :
    s.sync_apply entries = some (s.appendHistory entries).1 ∧
    (s.appendHistory entries).1.atoms = s.atoms ∧
    (s.appendHistory entries).1.graph = s.graph ∧
    (s.appendHistory entries).1.events = s.events ∧
    (∀ e ∈ entries, histHasKey (s.appendHistory entries).1.history e.1 e.2.1 = true) := by
  refine ⟨?_, ?_, ?_, ?_, ?_⟩
  · unfold Store.sync_apply
    apply syncfold_skip
    intro e he
    rcases appendHistory_novel_sub entries (s, []) e he with h0 | h0
    · cases h0
    · exact h e h0
  · exact (appendHistory_fields entries (s, [])).1
  · exact (appendHistory_fields entries (s, [])).2.1
  · exact (appendHistory_fields entries (s, [])).2.2.1
  · intro e he
    exact appendHistory_key_present entries (s, []) e he

theorem C10_sync_apply_skips_unknown_witness :
    (Store.mk 1 [] ⟨⟨[]⟩, []⟩ ⟨⟨[]⟩, [], [], []⟩ []).sync_apply
        [(2, 1, "meta", Bytes.garbage 0)] =
      some ((Store.mk 1 [] ⟨⟨[]⟩, []⟩ ⟨⟨[]⟩, [], [], []⟩ []).appendHistory
        [(2, 1, "meta", Bytes.garbage 0)]).1 ∧
    histHasKey (((Store.mk 1 [] ⟨⟨[]⟩, []⟩ ⟨⟨[]⟩, [], [], []⟩ []).appendHistory
        [(2, 1, "meta", Bytes.garbage 0)]).1.history) 2 1 = true := by
  have h := C10_sync_apply_skips_unknown (Store.mk 1 [] ⟨⟨[]⟩, []⟩ ⟨⟨[]⟩, [], [], []⟩ [])
    [(2, 1, "meta", Bytes.garbage 0)] (by decide)
  exact ⟨h.1, h.2.2.2.2 (2, 1, "meta", Bytes.garbage 0) (List.mem_singleton.mpr rfl)⟩

theorem C5_rejected_write_noop_witness :
    ((AtomSet.mk ⟨[(1, 5)]⟩ []).set ⟨[], []⟩ 9 1 3 (some (0, 0, [2]))).1 = false ∧
    ((AtomSet.mk ⟨[(1, 5)]⟩ []).set ⟨[], []⟩ 9 1 3 (some (0, 0, [2]))).2 =
      AtomSet.mk ⟨[(1, 5)]⟩ [] := by
  have h := C5_rejected_write_noop (AtomSet.mk ⟨[(1, 5)]⟩ []) ⟨[], []⟩ 9 1 3
    (some (0, 0, [2]))
  have h1 : ((AtomSet.mk ⟨[(1, 5)]⟩ []).set ⟨[], []⟩ 9 1 3 (some (0, 0, [2]))).1 = false := by
    rw [h.1]
    decide
  exact ⟨h1, (h.2 h1).1⟩
